import Mathlib

/-!
Verification of the reactor core in kurisu/event_loop.hpp.

The development shallowly embeds the pure control logic of the source file:
Channel dispatch, the Poller registration state machine, the EventLoop task
injection and quit handling, the loop-thread-pool round-robin, and the
TimerQueue expiry pipeline. Machine ints that cannot overflow in the modelled
scenarios are Nat/Int; callbacks are modelled by the observable actions they
take (which callback fired, which timers a timer callback cancels).
-/

namespace Kurisu

/-! ## epoll event bits (numeric values from sys/epoll.h) -/

def EPOLLIN : Nat := 1
def EPOLLPRI : Nat := 2
def EPOLLOUT : Nat := 4
def EPOLLERR : Nat := 8
def EPOLLHUP : Nat := 16
def EPOLLRDHUP : Nat := 8192

/-- Constant k_NoneEvent from Channel. -/
def k_NoneEvent : Nat := 0

/-- Constant k_ReadEvent = EPOLLIN | EPOLLPRI from Channel. -/
def k_ReadEvent : Nat := EPOLLIN ||| EPOLLPRI

/-- Constant k_WriteEvent = EPOLLOUT from Channel. -/
def k_WriteEvent : Nat := EPOLLOUT

/-! ## Channel dispatch (Channel::RunCallback / RunCallbackWithGuard)

A Channel's four std::function slots are modelled by whether each slot is
set; the observable effect of dispatch is the ordered list of callbacks
fired (the read callback carries the timestamp it receives). -/

structure ChannelCbs where
  hasRead : Bool
  hasWrite : Bool
  hasClose : Bool
  hasError : Bool
deriving DecidableEq

/-- Observable callback invocation during Channel dispatch. -/
inductive Fired where
  | close : Fired
  | error : Fired
  | read : Int → Fired
  | write : Fired
deriving DecidableEq

/-- Translation of Channel::RunCallbackWithGuard: the sequence of callbacks
fired for ready-mask `revents` at time `timestamp`. -/
def RunCallbackWithGuard (c : ChannelCbs) (revents : Nat) (timestamp : Int) : List Fired :=
  (if revents &&& EPOLLHUP != 0 && revents &&& EPOLLIN == 0 then
    (if c.hasClose then [Fired.close] else []) else [])
  ++ (if revents &&& EPOLLERR != 0 then
    (if c.hasError then [Fired.error] else []) else [])
  ++ (if revents &&& (EPOLLIN ||| EPOLLPRI ||| EPOLLRDHUP) != 0 then
    (if c.hasRead then [Fired.read timestamp] else []) else [])
  ++ (if revents &&& EPOLLOUT != 0 then
    (if c.hasWrite then [Fired.write] else []) else [])

/-- Translation of Channel::RunCallback: `tied` models m_tied, and
`tieAlive` models whether m_tie.lock() yields a live object. -/
def RunCallback (tied : Bool) (tieAlive : Bool) (c : ChannelCbs) (revents : Nat)
    (timestamp : Int) : List Fired :=
  if tied then
    if tieAlive then RunCallbackWithGuard c revents timestamp else []
  else RunCallbackWithGuard c revents timestamp

/-- Dispatch as worded by spec.md section 4.1 (steps 3 to 6): four guarded
steps, each firing iff its ready-bit condition holds and its slot is set. -/
def specDispatch (c : ChannelCbs) (revents : Nat) (timestamp : Int) : List Fired :=
  (if revents &&& EPOLLHUP != 0 && !(revents &&& EPOLLIN != 0) && c.hasClose then
    [Fired.close] else [])
  ++ (if revents &&& EPOLLERR != 0 && c.hasError then [Fired.error] else [])
  ++ (if revents &&& (EPOLLIN ||| EPOLLPRI ||| EPOLLRDHUP) != 0 && c.hasRead then
    [Fired.read timestamp] else [])
  ++ (if revents &&& EPOLLOUT != 0 && c.hasWrite then [Fired.write] else [])

/-- Channel with all four callback slots set. -/
def allCbs : ChannelCbs := ⟨true, true, true, true⟩

/-! ## Claims C2, C3, C7 -/

/-- Claim C2 (counterexample): with HUP, readable and writable all set on an
untied Channel with all four callbacks set, dispatch does NOT produce the
order close, read, write claimed by spec scenario 5: the close branch of
Channel::RunCallbackWithGuard requires EPOLLHUP and NOT EPOLLIN, and EPOLLIN
is set here, so the close callback never fires. -/
theorem dispatch_hup_in_out_not_close_read_write :
    RunCallback false true allCbs (EPOLLHUP ||| EPOLLIN ||| EPOLLOUT) 0 ≠
      [Fired.close, Fired.read 0, Fired.write] := by
  decide

/-- Claim C2 (amended): with HUP, readable and writable all set on an untied
Channel with all four callbacks set, dispatch invokes the read callback then
the write callback, and invokes neither the close callback nor the error
callback (close is suppressed because readable is set alongside HUP). -/
theorem dispatch_hup_in_out_order :
    ∀ timestamp : Int,
      RunCallback false true allCbs (EPOLLHUP ||| EPOLLIN ||| EPOLLOUT) timestamp =
        [Fired.read timestamp, Fired.write] := by
  intro timestamp
  rfl

/-- Claim C3: for every ready mask and timestamp, Channel dispatch is exactly
the four guarded steps in order close (iff HUP and not readable), error (iff
ERR), read with the timestamp (iff readable, priority or peer-half-closed),
write (iff writable), each firing only when the corresponding slot is set. -/
theorem dispatch_four_guarded_steps :
    ∀ (c : ChannelCbs) (revents : Nat) (timestamp : Int),
      RunCallbackWithGuard c revents timestamp = specDispatch c revents timestamp := by
  intro c revents timestamp
  unfold RunCallbackWithGuard specDispatch
  have seg : ∀ (a b : Bool) (l : List Fired),
      (if a then (if b then l else []) else []) = (if a && b then l else []) := by
    intro a b l
    cases a <;> simp
  rw [seg, seg, seg, seg]
  have hcl : (revents &&& EPOLLIN == 0) = !(revents &&& EPOLLIN != 0) := by
    simp [bne]
  rw [hcl]

/-- Claim C7: a tied Channel whose weak reference cannot be upgraded at
dispatch time fires none of the four callbacks, for every ready mask; if the
upgrade succeeds, or the Channel was never tied, dispatch proceeds exactly as
the guarded dispatch. -/
theorem tied_dead_skips_dispatch :
    ∀ (tieAlive : Bool) (c : ChannelCbs) (revents : Nat) (timestamp : Int),
      RunCallback true false c revents timestamp = [] ∧
      RunCallback true true c revents timestamp = RunCallbackWithGuard c revents timestamp ∧
      RunCallback false tieAlive c revents timestamp = RunCallbackWithGuard c revents timestamp := by
  intro tieAlive c revents timestamp
  exact ⟨rfl, rfl, rfl⟩

/-! ## Poller (Poller::UpdateChannel / RemoveChannel / HasChannel)

Channels are identified by opaque ids (the Channel pointer); the Poller's
std::map from fd to Channel pointer is an association list with overwrite on
insert. The registration status enum k_New = -1, k_Added = 1, k_Deleted = 2
becomes an inductive. -/

inductive ChStatus where
  | New : ChStatus
  | Added : ChStatus
  | Deleted : ChStatus
deriving DecidableEq

inductive EpollOp where
  | ADD : EpollOp
  | DEL : EpollOp
  | MOD : EpollOp
deriving DecidableEq

/-- The parts of a Channel that the Poller reads: fd, interest mask m_events,
and registration status m_status. -/
structure PChannel where
  fd : Nat
  events : Nat
  status : ChStatus
deriving DecidableEq

/-- Translation of Channel::IsNoneEvent. -/
def IsNoneEvent (c : PChannel) : Bool := c.events == k_NoneEvent

/-- The Poller's fd-to-Channel table m_channels (values are channel ids). -/
abbrev ChannelMap := List (Nat × Nat)

/-- Assignment m_channels[fd] = cid of std::map (overwrite or append). -/
def mapStore : ChannelMap → Nat → Nat → ChannelMap
  | [], fd, cid => [(fd, cid)]
  | (f, c) :: rest, fd, cid =>
    if f == fd then (fd, cid) :: rest else (f, c) :: mapStore rest fd cid

/-- m_channels.erase(fd). -/
def mapErase (m : ChannelMap) (fd : Nat) : ChannelMap :=
  m.filter (fun e => e.1 != fd)

/-- m_channels.find(fd). -/
def mapLookup : ChannelMap → Nat → Option Nat
  | [], _ => none
  | (f, c) :: rest, fd => if f == fd then some c else mapLookup rest fd

/-- Translation of Poller::UpdateChannel: returns the new table, the
channel's new status, and the epoll_ctl operation issued. -/
def Poller.UpdateChannel (m : ChannelMap) (cid : Nat) (c : PChannel) :
    ChannelMap × ChStatus × EpollOp :=
  match c.status with
  | ChStatus.New => (mapStore m c.fd cid, ChStatus.Added, EpollOp.ADD)
  | ChStatus.Deleted => (m, ChStatus.Added, EpollOp.ADD)
  | ChStatus.Added =>
    if IsNoneEvent c then (m, ChStatus.Deleted, EpollOp.DEL)
    else (m, ChStatus.Added, EpollOp.MOD)

/-- Translation of Poller::RemoveChannel: erase the fd from the table, issue
DEL only when the status was Added, set the status to New. -/
def Poller.RemoveChannel (m : ChannelMap) (c : PChannel) :
    ChannelMap × ChStatus × Option EpollOp :=
  (mapErase m c.fd, ChStatus.New,
    if c.status == ChStatus.Added then some EpollOp.DEL else none)

/-- Translation of Poller::HasChannel: find the fd and compare the stored
pointer with the channel. -/
def Poller.HasChannel (m : ChannelMap) (cid : Nat) (c : PChannel) : Bool :=
  match mapLookup m c.fd with
  | some x => x == cid
  | none => false

/-- One operation of the loop on a given channel: Channel::update after
setting the interest mask (the enable/disable paths), or Channel::remove. -/
inductive LoopOp where
  | update : Nat → LoopOp
  | remove : LoopOp
deriving DecidableEq

/-- Effect on (Poller table, channel) of one LoopOp, following
EventLoop::UpdateChannel / RemoveChannel delegating to the Poller. -/
def stepOp (cid : Nat) (s : ChannelMap × PChannel) (op : LoopOp) :
    ChannelMap × PChannel :=
  match op with
  | LoopOp.update ev =>
    let c := { s.2 with events := ev }
    let r := Poller.UpdateChannel s.1 cid c
    (r.1, { c with status := r.2.1 })
  | LoopOp.remove =>
    let r := Poller.RemoveChannel s.1 s.2
    (r.1, { s.2 with status := r.2.1 })

/-- A sequence of loop operations applied to a channel. -/
def runOps (cid : Nat) (s : ChannelMap × PChannel) (ops : List LoopOp) :
    ChannelMap × PChannel :=
  ops.foldl (stepOp cid) s

/-- Registration invariant: the table maps the channel's fd to the channel
exactly when its status is Added or Deleted. -/
abbrev RegInv (cid : Nat) (s : ChannelMap × PChannel) : Prop :=
  mapLookup s.1 s.2.fd = some cid ↔
    (s.2.status = ChStatus.Added ∨ s.2.status = ChStatus.Deleted)

theorem mapLookup_store (m : ChannelMap) (fd cid : Nat) :
    mapLookup (mapStore m fd cid) fd = some cid := by
  induction m with
  | nil => simp [mapStore, mapLookup]
  | cons e rest ih =>
    rcases e with ⟨f, c⟩
    by_cases h : f = fd
    · have hb : (f == fd) = true := by simp [h]
      simp [mapStore, hb, mapLookup]
    · have hb : (f == fd) = false := by simp [h]
      simpa [mapStore, hb, mapLookup] using ih

theorem mapLookup_erase (m : ChannelMap) (fd : Nat) :
    mapLookup (mapErase m fd) fd = none := by
  induction m with
  | nil => rfl
  | cons e rest ih =>
    rcases e with ⟨f, c⟩
    by_cases h : f = fd
    · have he : mapErase ((f, c) :: rest) fd = mapErase rest fd := by
        simp [mapErase, List.filter_cons, h]
      rw [he]
      exact ih
    · have he : mapErase ((f, c) :: rest) fd = (f, c) :: mapErase rest fd := by
        simp [mapErase, List.filter_cons, h]
      rw [he]
      have hb : (f == fd) = false := by simp [h]
      simpa [mapLookup, hb] using ih

/-! ## Claims C4, C5 -/

/-- Claim C4: Poller update is the four-case reconciliation: New inserts into
the table, marks Added, issues ADD; Deleted leaves the table unchanged, marks
Added, issues ADD; Added with empty interest issues DEL and marks Deleted
with the table retained; Added with non-empty interest issues MOD and keeps
status Added. -/
theorem poller_update_cases :
    ∀ (m : ChannelMap) (cid fd ev : Nat),
      (Poller.UpdateChannel m cid ⟨fd, ev, ChStatus.New⟩ =
        (mapStore m fd cid, ChStatus.Added, EpollOp.ADD) ∧
        mapLookup (Poller.UpdateChannel m cid ⟨fd, ev, ChStatus.New⟩).1 fd = some cid) ∧
      Poller.UpdateChannel m cid ⟨fd, ev, ChStatus.Deleted⟩ =
        (m, ChStatus.Added, EpollOp.ADD) ∧
      Poller.UpdateChannel m cid ⟨fd, 0, ChStatus.Added⟩ =
        (m, ChStatus.Deleted, EpollOp.DEL) ∧
      (ev ≠ 0 →
        Poller.UpdateChannel m cid ⟨fd, ev, ChStatus.Added⟩ =
          (m, ChStatus.Added, EpollOp.MOD)) := by
  intro m cid fd ev
  refine ⟨⟨rfl, mapLookup_store m fd cid⟩, rfl, rfl, ?_⟩
  intro hev
  simp [Poller.UpdateChannel, IsNoneEvent, k_NoneEvent, hev]

/-- Claim C4 witness at a concrete channel in the Added state with non-empty
interest. -/
theorem poller_update_cases_witness :
    (1 : Nat) ≠ 0 ∧
      Poller.UpdateChannel [] 5 ⟨7, 1, ChStatus.Added⟩ =
        ([], ChStatus.Added, EpollOp.MOD) :=
  ⟨by decide, (poller_update_cases [] 5 7 1).2.2.2 (by decide)⟩

/-- Claim C5: HasChannel holds exactly when the table maps the channel's fd
to that channel; the registration invariant (in table iff status Added or
Deleted) is preserved by every sequence of update/remove operations; and
right after a remove the status is New and HasChannel is false. -/
theorem poller_has_iff_registered :
    (∀ (m : ChannelMap) (cid : Nat) (c : PChannel),
      Poller.HasChannel m cid c = true ↔ mapLookup m c.fd = some cid) ∧
    (∀ (cid : Nat) (s : ChannelMap × PChannel) (ops : List LoopOp),
      RegInv cid s → RegInv cid (runOps cid s ops)) ∧
    (∀ (cid : Nat) (s : ChannelMap × PChannel),
      (stepOp cid s LoopOp.remove).2.status = ChStatus.New ∧
      Poller.HasChannel (stepOp cid s LoopOp.remove).1 cid
        (stepOp cid s LoopOp.remove).2 = false) := by
  refine ⟨?_, ?_, ?_⟩
  · intro m cid c
    unfold Poller.HasChannel
    cases h : mapLookup m c.fd with
    | none => simp
    | some x => simp
  · intro cid s ops hinv
    induction ops generalizing s with
    | nil => exact hinv
    | cons op rest ih =>
      refine ih (stepOp cid s op) ?_
      cases op with
      | update ev =>
        rcases s with ⟨m, c⟩
        cases hst : c.status with
        | New =>
          simp [stepOp, Poller.UpdateChannel, hst, RegInv, mapLookup_store]
        | Added =>
          have hm : mapLookup m c.fd = some cid := hinv.mpr (Or.inl hst)
          by_cases hev : ev = 0 <;>
            simp [stepOp, Poller.UpdateChannel, hst, RegInv, IsNoneEvent,
              k_NoneEvent, hev, hm]
        | Deleted =>
          have hm : mapLookup m c.fd = some cid := hinv.mpr (Or.inr hst)
          simp [stepOp, Poller.UpdateChannel, hst, RegInv, hm]
      | remove =>
        rcases s with ⟨m, c⟩
        simp [stepOp, Poller.RemoveChannel, RegInv, mapLookup_erase]
  · intro cid s
    rcases s with ⟨m, c⟩
    refine ⟨rfl, ?_⟩
    simp [stepOp, Poller.RemoveChannel, Poller.HasChannel, mapLookup_erase]

/-- Claim C5 witness: the invariant propagated from a fresh channel through a
concrete enable/disable/remove sequence. -/
theorem poller_has_iff_registered_witness :
    RegInv 3 ([], ⟨5, 0, ChStatus.New⟩) ∧
      RegInv 3 (runOps 3 ([], ⟨5, 0, ChStatus.New⟩)
        [LoopOp.update 1, LoopOp.update 0, LoopOp.remove]) :=
  ⟨by decide,
    poller_has_iff_registered.2.1 3 ([], ⟨5, 0, ChStatus.New⟩)
      [LoopOp.update 1, LoopOp.update 0, LoopOp.remove] (by decide)⟩

/-! ## EventLoop task injection (EventLoop::run / AddExtraFunc)

Tasks are opaque ids. The observable outcome of run is the new pending
queue, whether the callback ran synchronously, and whether wakeup() was
written. -/

structure LoopSt where
  extraFuncs : List Nat
  runningExtraFunc : Bool
deriving DecidableEq

structure RunOutcome where
  state : LoopSt
  ranSync : Bool
  woke : Bool
deriving DecidableEq

/-- Translation of EventLoop::AddExtraFunc: append under the mutex, then
wake if the caller is off-thread or the loop is mid-drain. -/
def AddExtraFunc (inLoopThread : Bool) (s : LoopSt) (f : Nat) : LoopSt × Bool :=
  ({ s with extraFuncs := s.extraFuncs ++ [f] }, !inLoopThread || s.runningExtraFunc)

/-- Translation of EventLoop::run: invoke synchronously on the owning
thread, otherwise delegate to AddExtraFunc. -/
def EventLoop.run (inLoopThread : Bool) (s : LoopSt) (f : Nat) : RunOutcome :=
  if inLoopThread then ⟨s, true, false⟩
  else
    let r := AddExtraFunc inLoopThread s f
    ⟨r.1, false, r.2⟩

/-! ## Loop thread pool (EventLoopThreadPool::GetNextLoop) -/

/-- Translation of EventLoopThreadPool::GetNextLoop on (base loop, started
loops, m_next): returns the chosen loop and the new m_next. -/
def GetNextLoop (base : Nat) (loops : List Nat) (next : Nat) : Nat × Nat :=
  if loops.isEmpty then (base, next)
  else
    let l := loops.getD next 0
    let n := next + 1
    if loops.length ≤ n then (l, 0) else (l, n)

/-- Iterate GetNextLoop, collecting the returned loops. -/
def iterNextLoop (base : Nat) (loops : List Nat) : Nat → Nat → List Nat
  | 0, _ => []
  | Nat.succ k, next =>
    let r := GetNextLoop base loops next
    r.1 :: iterNextLoop base loops k r.2

/-! ## EventLoop::loop and quit

The while-loop of EventLoop::loop is driven by a finite schedule: entry k of
the schedule tells whether some quit() call lands during poll iteration k
(from a callback, a drained task, or another thread after the wakeup). The
function counts how many poll iterations run before the quit flag is
observed; an empty remaining schedule means no quit arrives while we watch.
loop() overwrites m_quit with false on entry (line m_quit = false), so the
flag value it inherits is ignored. -/

def loopFrom : Bool → List Bool → Nat
  | true, _ => 0
  | false, [] => 0
  | false, q :: rest => 1 + loopFrom q rest

/-- Translation of EventLoop::quit on the atomic flag. -/
def EventLoop.quit (_ : Bool) : Bool := true

/-- Translation of the quit-flag behavior of EventLoop::loop: the inherited
flag value is replaced by false before the first poll. Returns the number of
poll iterations executed under the given schedule. -/
def EventLoop.loop (_m_quit : Bool) (sched : List Bool) : Nat :=
  loopFrom false sched

/-! ## Claims C8, C9, C10 -/

/-- Claim C8: run(f) on the owning thread invokes f synchronously, leaves
the pending queue unchanged and does not wake; run(f) from another thread
appends f to the pending queue, does not invoke it synchronously, and wakes
the loop. -/
theorem run_sync_on_own_thread :
    ∀ (s : LoopSt) (f : Nat),
      EventLoop.run true s f = ⟨s, true, false⟩ ∧
      EventLoop.run false s f =
        ⟨⟨s.extraFuncs ++ [f], s.runningExtraFunc⟩, false, true⟩ := by
  intro s f
  exact ⟨rfl, rfl⟩

/-- Claim C9: with three started loops, seven calls of GetNextLoop starting
from m_next = 0 return indices 0,1,2,0,1,2,0; with an empty pool the base
loop is returned; in general a call with m_next < size returns that slot and
advances m_next cyclically. -/
theorem nextLoop_round_robin :
    ∀ (base l0 l1 l2 : Nat),
      iterNextLoop base [l0, l1, l2] 7 0 = [l0, l1, l2, l0, l1, l2, l0] ∧
      (∀ next, GetNextLoop base [] next = (base, next)) ∧
      (∀ (loops : List Nat) (next : Nat), next < loops.length →
        GetNextLoop base loops next = (loops.getD next 0, (next + 1) % loops.length)) := by
  intro base l0 l1 l2
  refine ⟨rfl, fun next => rfl, ?_⟩
  intro loops next hlt
  have hne : loops.isEmpty = false := by
    cases loops with
    | nil => simp at hlt
    | cons a t => rfl
  unfold GetNextLoop
  rw [hne]
  simp only [Bool.false_eq_true, if_false]
  by_cases h : loops.length ≤ next + 1
  · have hev : next + 1 = loops.length := by omega
    rw [if_pos h, hev, Nat.mod_self]
  · rw [if_neg h, Nat.mod_eq_of_lt (by omega)]

/-- Claim C9 witness at a concrete two-loop pool. -/
theorem nextLoop_round_robin_witness :
    0 < [10, 20].length ∧
      GetNextLoop 9 [10, 20] 0 = ([10, 20].getD 0 0, (0 + 1) % [10, 20].length) :=
  ⟨by decide, (nextLoop_round_robin 9 0 0 0).2.2 [10, 20] 0 (by decide)⟩

/-- Claim C10: loop() overwrites the quit flag with false on entry, so a
quit() issued before loop() starts is discarded and the loop still enters
its polling iterations; a quit() issued during iteration k (schedule with k
quiet iterations, then one carrying the quit) stops the loop after exactly
k + 1 polls. -/
theorem loop_resets_quit_flag :
    (∀ q, EventLoop.quit q = true) ∧
    (∀ (q : Bool) (sched : List Bool),
      EventLoop.loop (EventLoop.quit q) sched = EventLoop.loop false sched) ∧
    (∀ (q x : Bool) (rest : List Bool), 1 ≤ EventLoop.loop q (x :: rest)) ∧
    (∀ (k : Nat) (rest : List Bool),
      EventLoop.loop (EventLoop.quit false) (List.replicate k false ++ true :: rest) =
        k + 1) := by
  refine ⟨fun q => rfl, fun q sched => rfl, ?_, ?_⟩
  · intro q x rest
    cases x <;> simp [EventLoop.loop, loopFrom]
  · intro k rest
    show loopFrom false (List.replicate k false ++ true :: rest) = k + 1
    induction k with
    | zero =>
      simp [loopFrom]
    | succ n ih =>
      simp only [List.replicate_succ, List.cons_append, loopFrom, List.append_eq]
      rw [ih]
      omega

/-! ## TimerQueue

Timestamps are Int microseconds. The TimerMap std::map keyed by
(expiry, Timer pointer) becomes a list of key/timer entries kept sorted by
the strict key order; timer identities are opaque Nats. -/

/-- Modelled from the spec: the Timer class of detail/timer.hpp is not under
src/. Attributes per spec section 3: absolute expiry (GetRuntime), interval
(0 means one-shot), repeat flag (interval > 0), identity. The callback is
modelled by the list of TimerIDs it cancels when invoked. -/
structure Timer where
  tid : Nat
  runtime : Int
  interval : Int
  cancels : List Nat
deriving DecidableEq

/-- Modelled from the spec: Timer::IsRepeat is the repeat flag,
interval > 0. -/
def Timer.IsRepeat (t : Timer) : Bool := decide (0 < t.interval)

/-- Modelled from the spec: Timer::restart advances the expiry by one
interval (spec section 4.3 step 4). -/
def Timer.restart (t : Timer) : Timer :=
  { t with runtime := t.runtime + t.interval }

/-- Strict lexicographic order of the (expiry, identity) std::pair key. -/
def keyLt (a b : Int × Nat) : Prop := a.1 < b.1 ∨ (a.1 = b.1 ∧ a.2 < b.2)

instance instKeyLtDec (a b : Int × Nat) : Decidable (keyLt a b) := by
  unfold keyLt
  infer_instance

/-- The TimerMap, a list of ((expiry, identity), timer) entries sorted by
keyLt on the keys. -/
abbrev TimerMap := List ((Int × Nat) × Timer)

/-- Ordered-map assignment m_timers[key] = timer. -/
def tmInsert : TimerMap → Int × Nat → Timer → TimerMap
  | [], k, v => [(k, v)]
  | (k2, v2) :: rest, k, v =>
    if keyLt k k2 then (k, v) :: (k2, v2) :: rest
    else if k = k2 then (k, v) :: rest
    else (k2, v2) :: tmInsert rest k v

/-- m_timers.erase(key). -/
def tmEraseKey (m : TimerMap) (k : Int × Nat) : TimerMap :=
  m.filter (fun e => decide (e.1 ≠ k))

/-- Lookup modelling m_timers.find(id.Key()): TimerID::Key() is the pair of
the pointed-to timer's current runtime and the pointer, which matches the
stored key of exactly the entry whose identity component is the id (an entry
for a timer is always keyed by the timer's current runtime and identity). -/
def tmFindKeyOfId (m : TimerMap) (id : Nat) : Option (Int × Nat) :=
  match m.find? (fun e => e.1.2 == id) with
  | some e => some e.1
  | none => none

/-- TimerQueue state: m_timers, m_cancelledSoon (as identities), and the
runningCallback flag. -/
structure TQ where
  timers : TimerMap
  cancelledSoon : List Nat
  runningCallback : Bool
deriving DecidableEq

/-- Translation of TimerQueue::CancelInLoop: erase immediately when not in a
callback batch, otherwise record the id in m_cancelledSoon; a TimerID not
found in the map is ignored. -/
def CancelInLoop (tq : TQ) (id : Nat) : TQ :=
  match tmFindKeyOfId tq.timers id with
  | some k =>
    if tq.runningCallback then { tq with cancelledSoon := tq.cancelledSoon ++ [id] }
    else { tq with timers := tmEraseKey tq.timers k }
  | none => tq

/-- Translation of TimerQueue::GetTimeout: the extraction bound is
lower_bound((now, UINTPTR_MAX)) on the sorted map; a real Timer pointer is
below UINTPTR_MAX, so an entry precedes the bound exactly when its expiry is
at most now. Returns the remaining map and the extracted timers in order. -/
def GetTimeout (m : TimerMap) (now : Int) : TimerMap × List Timer :=
  (m.dropWhile (fun e => decide (e.1.1 ≤ now)),
   (m.takeWhile (fun e => decide (e.1.1 ≤ now))).map (fun e => e.2))

/-- Invocation of one extracted timer's callback: the callback issues its
cancel calls, which on the loop thread run CancelInLoop synchronously
through EventLoop::run. -/
def runOneTimer (s : TQ) (t : Timer) : TQ := t.cancels.foldl CancelInLoop s

/-- Invocation of the extracted timers' callbacks in order (the item->run()
loop of HandleTimerfd). -/
def runTimeoutCallbacks (tq : TQ) (timeout : List Timer) : TQ :=
  timeout.foldl runOneTimer tq

/-- Modelled from the spec: detail::ResetTimerfd is not under src/. Spec
section 4.3 step 6: rearming fails (nonzero) exactly when the requested
expiry is not in the future of now, and returns 0 on success. -/
def ResetTimerfd (now runtime : Int) : Int := if runtime ≤ now then 1 else 0

/-- Lateness weight of one map entry; termination measure component for the
rearm retry loop. -/
def contrib (now : Int) (e : (Int × Nat) × Timer) : Nat :=
  (now + 1 - e.2.runtime).toNat

/-- Termination measure of the rearm retry loop. -/
def rearmMeasure (now : Int) (m : TimerMap) : Nat := (m.map (contrib now)).sum

theorem rearmMeasure_tmInsert (now : Int) (m : TimerMap) (k : Int × Nat) (v : Timer) :
    rearmMeasure now (tmInsert m k v) ≤ contrib now (k, v) + rearmMeasure now m := by
  induction m with
  | nil => simp [tmInsert, rearmMeasure]
  | cons e rest ih =>
    rcases e with ⟨k2, v2⟩
    by_cases h1 : keyLt k k2
    · simp only [tmInsert, if_pos h1, rearmMeasure, List.map_cons, List.sum_cons]
      omega
    · by_cases h2 : k = k2
      · simp only [tmInsert, if_neg h1, if_pos h2, rearmMeasure, List.map_cons,
          List.sum_cons]
        omega
      · simp only [tmInsert, if_neg h1, if_neg h2, rearmMeasure, List.map_cons,
          List.sum_cons] at ih ⊢
        omega

theorem rearm_step_repeat_lt (now : Int) (k : Int × Nat) (t : Timer) (rest : TimerMap)
    (hle : t.runtime ≤ now) (hrep : 0 < t.interval) :
    rearmMeasure now (tmInsert rest ((t.restart).runtime, (t.restart).tid) t.restart) <
      rearmMeasure now ((k, t) :: rest) := by
  have h1 := rearmMeasure_tmInsert now rest ((t.restart).runtime, (t.restart).tid) t.restart
  have h2 : contrib now (((t.restart).runtime, (t.restart).tid), t.restart) <
      contrib now (k, t) := by
    simp only [contrib, Timer.restart]
    omega
  simp only [rearmMeasure, List.map_cons, List.sum_cons] at h1 h2 ⊢
  omega

theorem rearm_step_drop_lt (now : Int) (k : Int × Nat) (t : Timer) (rest : TimerMap)
    (hle : t.runtime ≤ now) :
    rearmMeasure now rest < rearmMeasure now ((k, t) :: rest) := by
  have h2 : 0 < contrib now (k, t) := by
    simp only [contrib]
    omega
  simp only [rearmMeasure, List.map_cons, List.sum_cons]
  omega

/-- Translation of the rearm retry while-loop closing TimerQueue::reset:
while the map is nonempty, arm the timer-fd to the earliest entry; on
failure reschedule the earliest when repeating (restart then reinsert) and
erase it, then retry. -/
def rearmLoop (now : Int) : TimerMap → TimerMap
  | [] => []
  | (k, t) :: rest =>
    if hok : ResetTimerfd now t.runtime = 0 then (k, t) :: rest
    else if hrep : t.IsRepeat then
      rearmLoop now (tmInsert rest ((t.restart).runtime, (t.restart).tid) t.restart)
    else
      rearmLoop now rest
termination_by m => rearmMeasure now m
decreasing_by
  · have hle : t.runtime ≤ now := by
      by_contra hcon
      exact hok (by simp [ResetTimerfd, hcon])
    exact rearm_step_repeat_lt now k t rest hle (by simpa [Timer.IsRepeat] using hrep)
  · have hle : t.runtime ≤ now := by
      by_contra hcon
      exact hok (by simp [ResetTimerfd, hcon])
    exact rearm_step_drop_lt now k t rest hle

/-- Body of the first loop of TimerQueue::reset: a repeating timer of the
timeout batch is restarted and reinserted. -/
def reinsertStep (s : TQ) (t : Timer) : TQ :=
  if t.IsRepeat then
    { s with timers := tmInsert s.timers ((t.restart).runtime, (t.restart).tid) t.restart }
  else s

/-- Body of the second loop of TimerQueue::reset: erase the map entry of one
m_cancelledSoon id (found through it.Key()). -/
def cancelEraseStep (s : TQ) (id : Nat) : TQ :=
  match tmFindKeyOfId s.timers id with
  | some k => { s with timers := tmEraseKey s.timers k }
  | none => s

/-- Translation of TimerQueue::reset: reinsert every restarted repeating
timer of the timeout batch, erase the entries recorded in m_cancelledSoon,
clear that list, then rearm through the retry loop. -/
def TimerQueue.reset (tq : TQ) (timeout : List Timer) (now : Int) : TQ :=
  let tq1 := timeout.foldl reinsertStep tq
  let tq2 := tq1.cancelledSoon.foldl cancelEraseStep tq1
  { timers := rearmLoop now tq2.timers, cancelledSoon := [],
    runningCallback := tq2.runningCallback }

/-- Translation of TimerQueue::HandleTimerfd at current time now: extract
the due timers, run their callbacks under runningCallback = true, then
reset. -/
def HandleTimerfd (tq : TQ) (now : Int) : TQ :=
  let g := GetTimeout tq.timers now
  let tq1 : TQ := { tq with timers := g.1, runningCallback := true }
  let tq2 := runTimeoutCallbacks tq1 g.2
  let tq3 : TQ := { tq2 with runningCallback := false }
  TimerQueue.reset tq3 g.2 now

/-! ## TimerQueue invariants and the self-cancellation scenario -/

/-- Well-formedness of the TimerMap: each entry is keyed by its timer's
current runtime and identity (the C++ map key is built from exactly these at
every insertion). -/
abbrev KeysMatch (m : TimerMap) : Prop := ∀ e ∈ m, e.1 = (e.2.runtime, e.2.tid)

/-- Well-formedness of the TimerMap: keys strictly sorted, as in std::map. -/
abbrev TMSorted (m : TimerMap) : Prop := List.Pairwise (fun a b => keyLt a.1 b.1) m

/-- The (expiry, identity) order carried over to timers. -/
def timerKeyLt (a b : Timer) : Prop :=
  a.runtime < b.runtime ∨ (a.runtime = b.runtime ∧ a.tid < b.tid)

theorem sorted_takeWhile_dropWhile (now : Int) (m : TimerMap) (hs : TMSorted m) :
    m.takeWhile (fun e => decide (e.1.1 ≤ now)) =
      m.filter (fun e => decide (e.1.1 ≤ now)) ∧
    m.dropWhile (fun e => decide (e.1.1 ≤ now)) =
      m.filter (fun e => !decide (e.1.1 ≤ now)) := by
  induction m with
  | nil => exact ⟨rfl, rfl⟩
  | cons e rest ih =>
    rcases List.pairwise_cons.mp hs with ⟨he, hrest⟩
    rcases ih hrest with ⟨ht, hd⟩
    by_cases hp : e.1.1 ≤ now
    · simp [List.takeWhile_cons, List.dropWhile_cons, List.filter_cons, hp, ht, hd]
    · have hall : ∀ x ∈ rest, ¬ x.1.1 ≤ now := by
        intro x hx hc
        rcases he x hx with h1 | ⟨h1, _⟩
        · exact hp (by omega)
        · exact hp (by omega)
      have hfil : rest.filter (fun x => decide (x.1.1 ≤ now)) = [] := by
        rw [List.filter_eq_nil_iff]
        intro x hx
        simpa using hall x hx
      have hfil2 : rest.filter (fun x => !decide (x.1.1 ≤ now)) = rest := by
        rw [List.filter_eq_self]
        intro x hx
        simpa using hall x hx
      simp [List.takeWhile_cons, List.dropWhile_cons, List.filter_cons, hp, hfil, hfil2]

theorem CancelInLoop_timers_subset (tq : TQ) (id : Nat) :
    ∀ e ∈ (CancelInLoop tq id).timers, e ∈ tq.timers := by
  intro e he
  unfold CancelInLoop at he
  cases h : tmFindKeyOfId tq.timers id with
  | none =>
    rw [h] at he
    exact he
  | some k =>
    rw [h] at he
    by_cases hrc : tq.runningCallback
    · simp only [hrc, if_pos] at he
      exact he
    · simp only [hrc, Bool.false_eq_true, if_false] at he
      exact (List.mem_filter.mp he).1

theorem foldl_timers_subset {α : Type} (f : TQ → α → TQ)
    (hf : ∀ (s : TQ) (a : α), ∀ e ∈ (f s a).timers, e ∈ s.timers) :
    ∀ (l : List α) (tq : TQ), ∀ e ∈ (l.foldl f tq).timers, e ∈ tq.timers := by
  intro l
  induction l with
  | nil =>
    intro tq e he
    exact he
  | cons a rest ih =>
    intro tq e he
    exact hf tq a e (ih (f tq a) e he)

theorem runTimeoutCallbacks_timers_subset (tq : TQ) (timeout : List Timer) :
    ∀ e ∈ (runTimeoutCallbacks tq timeout).timers, e ∈ tq.timers := by
  refine foldl_timers_subset _ ?_ timeout tq
  intro s t
  exact foldl_timers_subset CancelInLoop CancelInLoop_timers_subset t.cancels s

theorem mem_tmInsert (m : TimerMap) (k : Int × Nat) (v : Timer) :
    ∀ e ∈ tmInsert m k v, e ∈ m ∨ e = (k, v) := by
  induction m with
  | nil =>
    intro e he
    simp only [tmInsert, List.mem_singleton] at he
    exact Or.inr he
  | cons x rest ih =>
    intro e he
    rcases x with ⟨k2, v2⟩
    by_cases h1 : keyLt k k2
    · simp only [tmInsert, if_pos h1, List.mem_cons] at he
      rcases he with he | he | he
      · exact Or.inr he
      · exact Or.inl (by simp [he])
      · exact Or.inl (List.mem_cons_of_mem _ he)
    · by_cases h2 : k = k2
      · simp only [tmInsert, if_neg h1, if_pos h2, List.mem_cons] at he
        rcases he with he | he
        · exact Or.inr he
        · exact Or.inl (List.mem_cons_of_mem _ he)
      · simp only [tmInsert, if_neg h1, if_neg h2, List.mem_cons] at he
        rcases he with he | he
        · exact Or.inl (by simp [he])
        · rcases ih e he with h | h
          · exact Or.inl (List.mem_cons_of_mem _ h)
          · exact Or.inr h

theorem mem_rearmLoop (now : Int) (m : TimerMap) :
    ∀ e ∈ rearmLoop now m, e ∈ m ∨ 0 < e.2.interval := by
  induction m using rearmLoop.induct now with
  | case1 =>
    intro e he
    simp only [rearmLoop] at he
    exact Or.inl he
  | case2 k t rest hok =>
    intro e he
    rw [rearmLoop] at he
    rw [dif_pos hok] at he
    exact Or.inl he
  | case3 k t rest hok hrep ih =>
    intro e he
    rw [rearmLoop, dif_neg hok, dif_pos hrep] at he
    rcases ih e he with h | h
    · rcases mem_tmInsert _ _ _ e h with h2 | h2
      · exact Or.inl (List.mem_cons_of_mem _ h2)
      · right
        have : (0 < t.interval) := by simpa [Timer.IsRepeat] using hrep
        simp [h2, Timer.restart]
        exact this
    · exact Or.inr h
  | case4 k t rest hok hrep ih =>
    intro e he
    rw [rearmLoop, dif_neg hok, dif_neg hrep] at he
    rcases ih e he with h | h
    · exact Or.inl (List.mem_cons_of_mem _ h)
    · exact Or.inr h

theorem reinsert_fold_mem (timeout : List Timer) (tq : TQ) :
    ∀ e ∈ (timeout.foldl reinsertStep tq).timers,
      e ∈ tq.timers ∨ 0 < e.2.interval := by
  induction timeout generalizing tq with
  | nil =>
    intro e he
    exact Or.inl he
  | cons t rest ih =>
    intro e he
    rw [List.foldl_cons] at he
    rcases ih _ e he with h | h
    · by_cases hr : t.IsRepeat
      · simp only [reinsertStep, if_pos hr] at h
        rcases mem_tmInsert _ _ _ e h with h2 | h2
        · exact Or.inl h2
        · right
          have hint : (0 < t.interval) := by simpa [Timer.IsRepeat] using hr
          simp [h2, Timer.restart]
          exact hint
      · simp only [reinsertStep, hr, Bool.false_eq_true, if_false] at h
        exact Or.inl h
    · exact Or.inr h

theorem cancelledSoon_fold_subset (ids : List Nat) (tq : TQ) :
    ∀ e ∈ (ids.foldl cancelEraseStep tq).timers, e ∈ tq.timers := by
  refine foldl_timers_subset _ ?_ ids tq
  intro s a e he
  unfold cancelEraseStep at he
  cases h : tmFindKeyOfId s.timers a with
  | none =>
    rw [h] at he
    exact he
  | some k =>
    rw [h] at he
    exact (List.mem_filter.mp he).1

theorem reset_mem (tq : TQ) (timeout : List Timer) (now : Int) :
    ∀ e ∈ (TimerQueue.reset tq timeout now).timers,
      e ∈ tq.timers ∨ 0 < e.2.interval := by
  intro e he
  simp only [TimerQueue.reset] at he
  rcases mem_rearmLoop now _ e he with h | h
  · have h2 := cancelledSoon_fold_subset _ _ e h
    exact reinsert_fold_mem _ _ e h2
  · exact Or.inr h

theorem handleTimerfd_mem (tq : TQ) (now : Int) :
    ∀ e ∈ (HandleTimerfd tq now).timers,
      e ∈ (GetTimeout tq.timers now).1 ∨ 0 < e.2.interval := by
  intro e he
  simp only [HandleTimerfd] at he
  rcases reset_mem _ _ _ e he with h | h
  · simp only at h
    exact Or.inl (runTimeoutCallbacks_timers_subset _ _ e h)
  · exact Or.inr h

/-! ## Claims C1, C6 -/

/-- Repeating timer whose callback cancels the timer's own TimerID. -/
def selfCancelTimer : Timer := { tid := 1, runtime := 100, interval := 10, cancels := [1] }

/-- TimerQueue holding only that timer, keyed at (100, 1). -/
def selfCancelTQ : TQ :=
  { timers := [((100, 1), selfCancelTimer)], cancelledSoon := [], runningCallback := false }

/-- Claim C1 (code bug): a repeating timer whose callback cancels its own
TimerID during the expiry handler IS reinserted by reset and stays
scheduled. When the callback runs, GetTimeout has already moved the timer
out of m_timers, so CancelInLoop's find fails and nothing is recorded in
m_cancelledSoon; reset then restarts and reinserts the timer (here at expiry
110), and its callback will fire again, contrary to the claim and spec. -/
theorem cancel_in_own_callback_is_lost :
    HandleTimerfd selfCancelTQ 100 =
      { timers := [((110, 1), { tid := 1, runtime := 110, interval := 10, cancels := [1] })],
        cancelledSoon := [], runningCallback := false } := by
  simp [HandleTimerfd, GetTimeout, runTimeoutCallbacks, runOneTimer, CancelInLoop,
    tmFindKeyOfId, selfCancelTQ, selfCancelTimer, TimerQueue.reset, reinsertStep,
    cancelEraseStep, Timer.IsRepeat, Timer.restart, tmInsert, rearmLoop, ResetTimerfd]

/-- Claim C6: on a well-formed TimerQueue (keys sorted, keys matching their
timers), after the expiry handler at time now every timer remaining in the
map has expiry strictly greater than now or is a repeating timer (the
rearmed case); and the extraction step removes exactly the entries with
expiry at most now, keeping the rest, with the extracted timers listed in
strict (expiry, identity) key order. -/
theorem handle_timerfd_post :
    ∀ (tq : TQ) (now : Int),
      KeysMatch tq.timers → TMSorted tq.timers →
      ((∀ e ∈ (HandleTimerfd tq now).timers, now < e.2.runtime ∨ 0 < e.2.interval) ∧
       (GetTimeout tq.timers now).2 =
         (tq.timers.filter (fun e => decide (e.1.1 ≤ now))).map (fun e => e.2) ∧
       (GetTimeout tq.timers now).1 =
         tq.timers.filter (fun e => !decide (e.1.1 ≤ now)) ∧
       List.Pairwise timerKeyLt (GetTimeout tq.timers now).2) := by
  intro tq now hk hs
  rcases sorted_takeWhile_dropWhile now tq.timers hs with ⟨htake, hdrop⟩
  have hdropMem : ∀ e ∈ (GetTimeout tq.timers now).1, now < e.2.runtime := by
    intro e he
    simp only [GetTimeout] at he
    rw [hdrop] at he
    rcases List.mem_filter.mp he with ⟨hmem, hpred⟩
    have hkey := hk e hmem
    have : ¬ e.1.1 ≤ now := by simpa using hpred
    rw [hkey] at this
    simpa using lt_of_not_le this
  refine ⟨?_, ?_, ?_, ?_⟩
  · intro e he
    rcases handleTimerfd_mem tq now e he with h | h
    · exact Or.inl (hdropMem e h)
    · exact Or.inr h
  · simp only [GetTimeout]
    rw [htake]
  · simp only [GetTimeout]
    rw [hdrop]
  · simp only [GetTimeout]
    have hsub : List.Sublist (tq.timers.takeWhile (fun e => decide (e.1.1 ≤ now))) tq.timers :=
      (List.takeWhile_prefix _).sublist
    have hpw : List.Pairwise (fun a b => keyLt a.1 b.1)
        (tq.timers.takeWhile (fun e => decide (e.1.1 ≤ now))) :=
      List.Pairwise.sublist hsub hs
    rw [List.pairwise_map]
    refine List.Pairwise.imp_of_mem ?_ hpw
    intro a b ha hb hab
    have hka := hk a (hsub.subset ha)
    have hkb := hk b (hsub.subset hb)
    rw [hka, hkb] at hab
    exact hab

/-- Claim C6 witness: a concrete well-formed queue with one overdue one-shot
timer, one overdue repeater, and one future timer. -/
def w6tq : TQ :=
  { timers := [((5, 1), { tid := 1, runtime := 5, interval := 0, cancels := [] }),
               ((7, 2), { tid := 2, runtime := 7, interval := 4, cancels := [] }),
               ((20, 3), { tid := 3, runtime := 20, interval := 0, cancels := [] })],
    cancelledSoon := [], runningCallback := false }

theorem handle_timerfd_post_witness :
    (KeysMatch w6tq.timers ∧ TMSorted w6tq.timers) ∧
      ((∀ e ∈ (HandleTimerfd w6tq 10).timers, 10 < e.2.runtime ∨ 0 < e.2.interval) ∧
       (GetTimeout w6tq.timers 10).2 =
         (w6tq.timers.filter (fun e => decide (e.1.1 ≤ 10))).map (fun e => e.2) ∧
       (GetTimeout w6tq.timers 10).1 =
         w6tq.timers.filter (fun e => !decide (e.1.1 ≤ 10)) ∧
       List.Pairwise timerKeyLt (GetTimeout w6tq.timers 10).2) :=
  ⟨⟨by decide, by decide⟩, handle_timerfd_post w6tq 10 (by decide) (by decide)⟩

end Kurisu